import Mathlib

/-!
# Verification of the `pyms-agilent` XML metadata extraction core

This file is a shallow embedding, in Lean 4, of the XML metadata extraction
subsystem of the `pyms-agilent` repository, centred on
`pyms_agilent/xml_parser/core.py` (the enum resolution helper
`_get_from_enum`, the versioned list base class `XMLList` with
`make_from_element`, and the primitive coercion engine `tag2dict`),
together with the metadata extraction orchestrator.

Python values reaching these functions are modelled by a small closed value
type; Python exceptions are modelled with `Except`; `lxml.objectify` XML
elements are modelled as a tree of tags each carrying its objectify leaf
classification (`IntElement` / `StringElement` / `FloatElement` / other)
and its optional `.text`; Python `dict` is modelled as an association list
with Python's assignment semantics (a re-assigned key keeps its original
position and takes the new value).
-/

set_option autoImplicit false

namespace PymsAgilent

/-- The `lxml.objectify` leaf classification of an element, as tested by the
`isinstance` chain in `tag2dict`: `IntElement`, `StringElement`,
`FloatElement`, or any other element class (the fallback branch). -/
inductive PyType where
  | int
  | str
  | float
  | other
  deriving DecidableEq, Repr

/-- An XML element as seen by `lxml.objectify`: a tag name (possibly carrying
a `{namespace}` prefix), its objectify leaf classification, its `.text`
(`none` models Python `None`, as produced for an empty element), and its
direct children in document order. -/
inductive Element where
  | mk (tag : String) (pytype : PyType) (text : Option String) (children : List Element)

/-- The tag name of an element. -/
def Element.tag : Element → String
  | .mk t _ _ _ => t

/-- The objectify leaf classification of an element. -/
def Element.pytype : Element → PyType
  | .mk _ p _ _ => p

/-- The `.text` of an element (`none` models Python `None`). -/
def Element.text : Element → Option String
  | .mk _ _ s _ => s

/-- The direct children of an element, in document order. -/
def Element.children : Element → List Element
  | .mk _ _ _ c => c

/-- Python exceptions raised by the modelled code. -/
inductive PyErr where
  | typeError (msg : String)
  | valueError (msg : String)
  | attributeError (msg : String)
  deriving DecidableEq, Repr

/-- The Python values that the coercion engine produces: `int`, `str`,
`float` (represented by the literal it was parsed from), and `None`. -/
inductive PyObj where
  | pyInt (n : Int)
  | pyStr (s : String)
  | pyFloat (lit : String)
  | pyNone
  deriving DecidableEq, Repr

/-- ASCII whitespace, as stripped by Python `int(...)` / `float(...)`
around a numeric literal. -/
def isSpaceA (c : Char) : Bool :=
  c = ' ' || c = '\t' || c = '\n' || c = '\r' || c.toNat = 11 || c.toNat = 12

/-- Python `str.strip()` over the modelled character set: drop whitespace
from both ends. -/
def pyStrip (s : String) : String :=
  ⟨((s.data.dropWhile isSpaceA).reverse.dropWhile isSpaceA).reverse⟩

/-- Value of a list of decimal digit characters, `none` if the list is empty
or contains a non-digit. -/
def parseDigits (cs : List Char) : Option Nat :=
  if cs.isEmpty then none
  else if cs.all Char.isDigit then
    some (cs.foldl (fun a c => a * 10 + (c.toNat - 48)) 0)
  else none

/-- Python `int(s)` on a string: strips surrounding whitespace, allows an
optional sign, then requires a non-empty run of decimal digits; raises
`ValueError` otherwise. -/
def pyIntOfStr (s : String) : Except PyErr Int :=
  match (pyStrip s).data with
  | '+' :: rest =>
      match parseDigits rest with
      | some n => .ok (n : Int)
      | none => .error (.valueError "invalid literal for int() with base 10")
  | '-' :: rest =>
      match parseDigits rest with
      | some n => .ok (-(n : Int))
      | none => .error (.valueError "invalid literal for int() with base 10")
  | cs =>
      match parseDigits cs with
      | some n => .ok (n : Int)
      | none => .error (.valueError "invalid literal for int() with base 10")

/-- Python `int(x)` where `x` is an optional string (`None` or `str`):
`int(None)` raises `TypeError`, otherwise parse the string. -/
def pyIntOfText : Option String → Except PyErr Int
  | none => .error (.typeError "int() argument must be a string, not NoneType")
  | some s => pyIntOfStr s

/-- Python `str(x)` where `x` is an optional string: `str(None)` is the
four-character string `"None"`; `str` of a string is itself. -/
def pyStrOfText : Option String → String
  | none => "None"
  | some s => s

/-! ## Enum resolution helper (`_get_from_enum`, core.py lines 96-100)

A Python enum type is modelled by the list of its member values; a member
instance is identified by its value.  The argument of `_get_from_enum` is
either already an instance of the enum (`isinstance(value, enum)` holds) or
some other raw value that the coercion function `type_` maps into the
member-value domain.  Calling the enum class on a value, `enum(v)`, returns
the member with that value, or raises
`ValueError: <v> is not a valid <Enum>` when no member has it. -/

/-- A value as it arrives at `_get_from_enum`: either an instance of the
target enumeration (carrying its member value) or a raw, non-member value. -/
inductive PyVal (κ ρ : Type) where
  | member (v : κ)
  | raw (r : ρ)
  deriving DecidableEq, Repr

/-- Python `Enum.__call__`: look the value up among the members of the
enumeration, raising `ValueError` when absent. -/
def enumCall {κ : Type} [DecidableEq κ] (members : List κ) (v : κ) :
    Except PyErr κ :=
  if v ∈ members then .ok v
  else .error (.valueError "value is not a valid member of the enumeration")

/-- The helper `_get_from_enum(value, enum, type_=str)` from core.py: if `value` is
already an instance of `enum`, return it unchanged; otherwise return
`enum(type_(value))`.  The coercion `type_` (whose Python default is `str`)
is passed explicitly. -/
def get_from_enum {κ ρ : Type} [DecidableEq κ] (members : List κ)
    (type_ : ρ → κ) : PyVal κ ρ → Except PyErr (PyVal κ ρ)
  | .member v => .ok (.member v)
  | .raw r => (enumCall members (type_ r)).map .member

/-! ## Canonical keys: namespace stripping and `camel_to_snake`

`tag2dict` (core.py lines 118-128) first strips the `{xmlns}` prefix from
the tag name (via `re.sub(fr"^{{{xmlns}}}", "", tag.tag)`, modelled as a
literal prefix strip, which agrees with the anchored regex whenever the
namespace URL contains no regex metacharacters; the Python truthiness test
`if xmlns:` skips the strip both for `None` and for the empty string), then
either looks the name up in the `camel_lookup` override table or applies
`camel_to_snake`. -/

/-- ASCII uppercase letter test (`A`-`Z`). -/
def isUpperA (c : Char) : Bool := 65 ≤ c.toNat && c.toNat ≤ 90

/-- ASCII lowercase letter test (`a`-`z`). -/
def isLowerA (c : Char) : Bool := 97 ≤ c.toNat && c.toNat ≤ 122

/-- ASCII digit test (`0`-`9`). -/
def isDigitA (c : Char) : Bool := 48 ≤ c.toNat && c.toNat ≤ 57

/-- ASCII lowercasing: map `A`-`Z` to `a`-`z`, leave everything else. -/
def toLowerA (c : Char) : Char :=
  if isUpperA c then Char.ofNat (c.toNat + 32) else c

/-- An underscore is inserted before character `c` (whose predecessor in the
original string is `prev` and whose successors are `rest`) exactly when `c`
is uppercase and either follows a lowercase letter or digit or starts an
uppercase-then-lowercase group (the word-boundary positions of the
CamelCase→snake_case rewrite). -/
def needsSep (prev c : Char) (rest : List Char) : Bool :=
  isUpperA c && (isLowerA prev || isDigitA prev ||
    (match rest with
     | r :: _ => isLowerA r
     | [] => false))

/-- Character-level worker for `camel_to_snake`: `prev` is the previous
character of the original string. -/
def c2sGo : Char → List Char → List Char
  | _, [] => []
  | prev, c :: rest =>
      if needsSep prev c rest then '_' :: toLowerA c :: c2sGo c rest
      else toLowerA c :: c2sGo c rest

/-- Modelled from the spec: the generic CamelCase→snake_case transform.
The function used by `tag2dict` is `camel_to_snake` from the external
`mh_utils.utils` module, which is not under `src/`; the spec describes it
as the deterministic, total "generic CamelCase→snake_case transform".
It lowercases the string, inserting an underscore at every word boundary
(an uppercase letter preceded by a lowercase letter or digit, or an
uppercase letter starting an uppercase-lowercase group). -/
def camel_to_snake (s : String) : String :=
  match s.data with
  | [] => ""
  | c :: rest => ⟨toLowerA c :: c2sGo c rest⟩

/-- A character allowed in an already-canonical snake_case name: lowercase
ASCII letter, digit, or underscore. -/
def snakeChar (c : Char) : Bool := isLowerA c || isDigitA c || c = '_'

/-- An already-canonical (snake_case) name: every character is a lowercase
ASCII letter, a digit, or an underscore. -/
def isSnakeName (s : String) : Bool := s.data.all snakeChar

/-- The namespace strip of `tag2dict`: `re.sub(fr"^{{{xmlns}}}", "", tag)`
under `if xmlns:` — no strip when `xmlns` is `None` or the empty string,
otherwise remove a leading `{xmlns}` prefix when present. -/
def stripXmlns : Option String → String → String
  | none, tag => tag
  | some ns, tag =>
      if ns = "" then tag
      else
        let pre := "\x7b" ++ ns ++ "\x7d"
        if pre.data.isPrefixOf tag.data then ⟨tag.data.drop pre.data.length⟩
        else tag

/-- The canonical key of a child tag in `tag2dict`: strip the namespace
prefix, then `camel_lookup.get(tag_name, camel_to_snake(tag_name))` when an
override table was given, else `camel_to_snake(tag_name)`. -/
def canonKey (camel_lookup : Option (List (String × String)))
    (xmlns : Option String) (tag : String) : String :=
  let tagName := stripXmlns xmlns tag
  match camel_lookup with
  | some tbl =>
      match tbl.lookup tagName with
      | some v => v
      | none => camel_to_snake tagName
  | none => camel_to_snake tagName

/-! ## Leaf coercion and the Python dict model (`tag2dict`)

`tag2dict` (core.py lines 116-139) walks the direct children of an element
in document order; each child's value is coerced according to its
objectify class (`IntElement` → `int(tag.text)`, `StringElement` →
`str(tag.text)`, `FloatElement` → `float(tag.text)`, anything else →
`tag.text` unmodified) and assigned into a `dict` under the child's
canonical key. -/

/-- Digit run of a Python float literal: non-empty, all ASCII digits. -/
def digitRun (cs : List Char) : Bool := !cs.isEmpty && cs.all Char.isDigit

/-- Signed digit run after the `e`/`E` of a float exponent. -/
def expDigits : List Char → Bool
  | '+' :: r => digitRun r
  | '-' :: r => digitRun r
  | r => digitRun r

/-- Optional exponent part of a Python float literal (`e`/`E`, optional
sign, non-empty digit run), or nothing at all. -/
def expPart : List Char → Bool
  | [] => true
  | 'e' :: rest => expDigits rest
  | 'E' :: rest => expDigits rest
  | _ => false

/-- Unsigned body of a Python float literal: digits with an optional
fractional part (at least one digit on some side of the dot), or a bare
digit run, followed by an optional exponent. -/
def floatBody (cs : List Char) : Bool :=
  let (ip, rest) := cs.span Char.isDigit
  match rest with
  | '.' :: rest2 =>
      let (fp, rest3) := rest2.span Char.isDigit
      (!ip.isEmpty || !fp.isEmpty) && expPart rest3
  | _ => !ip.isEmpty && expPart rest

/-- Python `float(s)` literal test: optional sign, then a numeric body or
one of the special spellings `inf`, `infinity`, `nan` (case-insensitive). -/
def isFloatLit (s : String) : Bool :=
  let cs :=
    match s.data with
    | '+' :: r => r
    | '-' :: r => r
    | r => r
  let low := cs.map toLowerA
  low = "inf".data || low = "infinity".data || low = "nan".data || floatBody cs

/-- Python `float(x)` where `x` is an optional string: `float(None)` raises
`TypeError`, a non-float-literal string raises `ValueError`, and a valid
literal yields the float, represented here by its trimmed literal text
(Python `float` strips surrounding whitespace). -/
def pyFloatOfText : Option String → Except PyErr String
  | none => .error (.typeError "float() argument must be a string, not NoneType")
  | some s =>
      if isFloatLit (pyStrip s) then .ok (pyStrip s)
      else .error (.valueError "could not convert string to float")

/-- The fallback branch of `tag2dict`: `output_dict[tag_name] = tag.text`
passes the raw `.text` through unmodified — Python `None` for an absent
text, the string itself otherwise. -/
def rawPassThrough : Option String → PyObj
  | none => .pyNone
  | some s => .pyStr s

/-- The per-child value coercion of `tag2dict` (core.py lines 130-137): the
`isinstance` chain on the objectify class of the child.  `IntElement` →
`int(tag.text)`; `StringElement` → `str(tag.text)`; `FloatElement` →
`float(tag.text)`; anything else → `tag.text` unmodified. -/
def coerceTag (tag : Element) : Except PyErr PyObj :=
  match tag.pytype with
  | .int => (pyIntOfText tag.text).map .pyInt
  | .str => .ok (.pyStr (pyStrOfText tag.text))
  | .float => (pyFloatOfText tag.text).map .pyFloat
  | .other => .ok (rawPassThrough tag.text)

/-- Python dict assignment `d[k] = v` on an insertion-ordered association
list: when `k` is already present the entry keeps its original position and
takes the new value; otherwise the pair is appended at the end. -/
def dictAssign (d : List (String × PyObj)) (k : String) (v : PyObj) :
    List (String × PyObj) :=
  if d.any (fun p => p.1 = k) then
    d.map (fun p => if p.1 = k then (k, v) else p)
  else d ++ [(k, v)]

/-- The keys of a modelled Python dict, in insertion order. -/
def dictKeys (d : List (String × PyObj)) : List String := d.map Prod.fst

/-- Python dict read `d[k]` on the association-list model: the value at the
first (and, for dicts built by `dictAssign`, only) entry with key `k`. -/
def dictGet (k : String) : List (String × PyObj) → Option PyObj
  | [] => none
  | p :: rest => if p.1 = k then some p.2 else dictGet k rest

/-- The loop of `tag2dict` over the remaining children, carrying the dict
built so far; a coercion error (a Python exception inside the loop)
propagates out. -/
def tag2dictGo (camel_lookup : Option (List (String × String)))
    (xmlns : Option String) :
    List Element → List (String × PyObj) → Except PyErr (List (String × PyObj))
  | [], d => .ok d
  | t :: rest, d =>
      match coerceTag t with
      | .error e => .error e
      | .ok v =>
          tag2dictGo camel_lookup xmlns rest
            (dictAssign d (canonKey camel_lookup xmlns t.tag) v)

/-- The function `tag2dict(element, camel_lookup=None, xmlns=None)` from core.py:
a dictionary mapping the canonical keys of the direct children of
`element` to their coerced values. -/
def tag2dict (element : Element)
    (camel_lookup : Option (List (String × String))) (xmlns : Option String) :
    Except PyErr (List (String × PyObj)) :=
  tag2dictGo camel_lookup xmlns element.children []

/-- The pairs `(canonical key, coerced value)` of a list of children, in
document order, with the first coercion error propagated. -/
def childPairs (camel_lookup : Option (List (String × String)))
    (xmlns : Option String) :
    List Element → Except PyErr (List (String × PyObj))
  | [] => .ok []
  | t :: rest =>
      match coerceTag t with
      | .error e => .error e
      | .ok v =>
          (childPairs camel_lookup xmlns rest).map
            (fun ps => (canonKey camel_lookup xmlns t.tag, v) :: ps)

/-- Replay a list of key/value pairs into a dict by repeated Python dict
assignment. -/
def applyPairs (d : List (String × PyObj)) (ps : List (String × PyObj)) :
    List (String × PyObj) :=
  ps.foldl (fun acc p => dictAssign acc p.1 p.2) d

/-- Insert a key at the end of a key list unless already present (the key
ordering effect of one Python dict assignment). -/
def insKey (ks : List String) (k : String) : List String :=
  if k ∈ ks then ks else ks ++ [k]

/-- First-occurrence deduplication: keep each key at the position of its
first occurrence. -/
def firstDedup : List String → List String
  | [] => []
  | k :: rest => k :: (firstDedup rest).filter (fun x => x ≠ k)

/-- The value of the last pair carrying key `k`, if any. -/
def lastVal (k : String) : List (String × PyObj) → Option PyObj
  | [] => none
  | p :: rest =>
      match lastVal k rest with
      | some v => some v
      | none => if p.1 = k then some p.2 else none

/-- The last child of `ts` whose canonical key is `k`, if any. -/
def lastMatching (camel_lookup : Option (List (String × String)))
    (xmlns : Option String) (k : String) : List Element → Option Element
  | [] => none
  | t :: rest =>
      match lastMatching camel_lookup xmlns k rest with
      | some u => some u
      | none =>
          if canonKey camel_lookup xmlns t.tag = k then some t else none

/-! ## Versioned record lists (`XMLList`, `make_from_element`)

`XMLList` (core.py lines 56-93) is a list subclass carrying a `version`
attribute.  `from_xml` reads `element.Version` — objectify attribute
access, which returns the first child element named `Version` and raises
`AttributeError` when there is none — and `__init__` stores
`int(version)`, which parses the child's text (`ValueError` when it is not
a valid integer literal).  `_append_from_element` appends one record per
matching direct child, via `make_from_element`. -/

/-- A versioned record list: the `version` attribute plus the ordered
record sequence. -/
structure XMLList (ρ : Type) where
  version : Int
  records : List ρ

/-- The first direct child of `e` named `name` (objectify attribute
access `e.<name>`), if any. -/
def findChild (e : Element) (name : String) : Option Element :=
  e.children.find? (fun c => c.tag = name)

/-- The generator `make_from_element(element, name, class_)` from core.py: one
`class_.from_xml(item)` per direct child of `element` named `name`
(`element.findall(name)`), in document order. -/
def make_from_element {ρ : Type} (element : Element) (name : String)
    (fromXml : Element → ρ) : List ρ :=
  (element.children.filter (fun c => c.tag = name)).map fromXml

/-- The classmethod `XMLList.from_xml(element)` = `cls(element.Version)`: fetch the first
child named `Version` (`AttributeError` if absent), parse its text as an
integer (`ValueError` if non-numeric), and return an empty list carrying
that version.  (For an objectify `IntElement` or `StringElement` the
Python `int(...)` coercion applied by `__init__` equals parsing the
child's text.) -/
def XMLList.from_xml (ρ : Type) (element : Element) :
    Except PyErr (XMLList ρ) :=
  match findChild element "Version" with
  | none => .error (.attributeError "no such child: Version")
  | some v => (pyIntOfText v.text).map (fun n => ⟨n, []⟩)

/-- The method `XMLList._append_from_element(element)` from core.py, with the class
attributes `_content_xml_name` / `_content_type` passed explicitly: append
one record per matching child, in document order, after the existing
records. -/
def XMLList._append_from_element {ρ : Type} (l : XMLList ρ)
    (element : Element) (name : String) (fromXml : Element → ρ) : XMLList ρ :=
  { l with records := l.records ++ make_from_element element name fromXml }

/-- Index assignment `NamedList.__setitem__` (inherited by `XMLList`): replace the record at
an index, leaving length and version alone. -/
def XMLList.setItem {ρ : Type} (l : XMLList ρ) (i : Nat) (x : ρ) : XMLList ρ :=
  ⟨l.version, l.records.set i x⟩

/-- One `_append_from_element` call: the element scanned, the child tag
name, and the child type's from-XML constructor. -/
structure AppendCall (ρ : Type) where
  element : Element
  name : String
  fromXml : Element → ρ

/-- Issue a sequence of `_append_from_element` calls in order. -/
def appendCalls {ρ : Type} (l : XMLList ρ) : List (AppendCall ρ) → XMLList ρ
  | [] => l
  | c :: rest =>
      appendCalls (l._append_from_element c.element c.name c.fromXml) rest

/-! ## The metadata extraction orchestrator -/

/-- Modelled from the spec: the filesystem visible to the orchestrator
(module `pyms_agilent.metadata`, not under `src/`): which paths are
existing directories, and the parseable file at each path, if any. -/
structure FileSystem where
  isDir : String → Bool
  readFile : String → Option Element

/-- Modelled from the spec: a Python argument passed to the orchestrator —
a path-like value (a `str` or `pathlib.Path`), or a non-path-like value
such as a number or a list. -/
inductive PyArg where
  | pathLike (p : String)
  | intArg (n : Int)
  | listArg (len : Nat)

/-- Modelled from the spec: the eight logical metadata file names of the
aggregated metadata mapping. -/
def logicalNames : List String :=
  ["AcqMethod", "Contents", "DefaultMassCal", "DeviceConfigInfo",
   "Devices", "MSActualDefs", "MSTS", "sample_info"]

/-- Modelled from the spec: `is_datafile` (module `pyms_agilent.metadata`,
not under `src/`): a path-like argument names a datafile when it resolves
to an existing directory whose name ends in the vendor extension `.d`;
a non-path-like argument raises `TypeError`. -/
def is_datafile (fs : FileSystem) : PyArg → Except PyErr Bool
  | .pathLike p => .ok (fs.isDir p && p.endsWith ".d")
  | .intArg _ => .error (.typeError "argument should be a str or an os.PathLike object")
  | .listArg _ => .error (.typeError "argument should be a str or an os.PathLike object")

/-- Modelled from the spec: read the given logical metadata files inside
the datafile directory, failing on the first missing one. -/
def readAll (fs : FileSystem) (p : String) :
    List String → Except PyErr (List (String × Element))
  | [] => .ok []
  | n :: rest =>
      match fs.readFile (p ++ "/" ++ n) with
      | none => .error (.valueError ("missing metadata file: " ++ n))
      | some doc => (readAll fs p rest).map (fun m => (n, doc) :: m)

/-- Modelled from the spec: `extract_metadata(path)` (module
`pyms_agilent.metadata`, not under `src/`).  A non-path-like argument fails
with `TypeError` before any file I/O; a path-like argument that is not an
existing directory ending in `.d` fails with the "not a recognized
datafile" `ValueError`, also before any file I/O; otherwise the eight
logical metadata files are read and parsed.  The second component is the
I/O trace: the file paths read during the call. -/
def extract_metadata (fs : FileSystem) (arg : PyArg) :
    Except PyErr (List (String × Element)) × List String :=
  match arg with
  | .pathLike p =>
      if fs.isDir p && p.endsWith ".d" then
        (readAll fs p logicalNames, logicalNames.map (fun n => p ++ "/" ++ n))
      else
        (.error (.valueError "not a recognized Agilent datafile"), [])
  | .intArg _ =>
      (.error (.typeError "argument should be a str or an os.PathLike object"), [])
  | .listArg _ =>
      (.error (.typeError "argument should be a str or an os.PathLike object"), [])

end PymsAgilent

namespace PymsAgilent

/-- C1: For every input value that is not already a member of the
enumeration, `_get_from_enum` applies the coercion function `type_`
(default: `str`) and looks the result up in the enumeration: when some
member has the coerced value, that member is returned; when no member has
it, the call fails with the "value is not a valid member of the
enumeration" `ValueError` instead of returning any default member. -/
theorem get_from_enum_raw_lookup {κ ρ : Type} [DecidableEq κ]
    (members : List κ) (type_ : ρ → κ) (r : ρ) :
    (type_ r ∈ members →
      get_from_enum members type_ (.raw r) = .ok (.member (type_ r))) ∧
    (type_ r ∉ members →
      get_from_enum members type_ (.raw r) =
        .error (.valueError "value is not a valid member of the enumeration")) := by
  constructor <;> intro h <;>
    simp [get_from_enum, enumCall, h, Except.map]

/-- Witness for C1 at a concrete enumeration: coercing `7` by `toString`
finds the member `"7"` of `["3", "7"]`, and coercing `9` fails. -/
theorem get_from_enum_raw_lookup_witness :
    get_from_enum ["3", "7"] (fun n : Nat => toString n) (.raw 7) =
      .ok (.member "7") ∧
    get_from_enum ["3", "7"] (fun n : Nat => toString n) (.raw 9) =
      .error (.valueError "value is not a valid member of the enumeration") :=
  ⟨(get_from_enum_raw_lookup ["3", "7"] (fun n : Nat => toString n) 7).1
     (by decide),
   (get_from_enum_raw_lookup ["3", "7"] (fun n : Nat => toString n) 9).2
     (by decide)⟩

/-- C8: `_get_from_enum` is idempotent: a value that is already an instance
of the target enumeration is returned unchanged, and consequently feeding a
successful result back through the helper returns it again, so
`resolve(resolve(x, E), E) = resolve(x, E)` whenever `resolve(x, E)`
succeeds. -/
theorem get_from_enum_idempotent {κ ρ : Type} [DecidableEq κ]
    (members : List κ) (type_ : ρ → κ) :
    (∀ v : κ, get_from_enum (ρ := ρ) members type_ (.member v) = .ok (.member v)) ∧
    (∀ x y : PyVal κ ρ, get_from_enum members type_ x = .ok y →
      get_from_enum members type_ y = .ok y) := by
  refine ⟨fun v => rfl, fun x y h => ?_⟩
  cases x with
  | member v =>
      simp only [get_from_enum] at h
      cases h
      rfl
  | raw r =>
      simp only [get_from_enum, enumCall] at h
      by_cases hm : type_ r ∈ members
      · simp [hm, Except.map] at h
        cases h
        rfl
      · simp [hm, Except.map] at h

/-- Witness for C8: resolving the member `"3"` of `["3", "7"]` returns it
unchanged, and re-resolving the result of resolving the raw value `3`
returns that result unchanged. -/
theorem get_from_enum_idempotent_witness :
    get_from_enum ["3", "7"] (fun n : Nat => toString n)
      (.member "3") = .ok (.member "3") ∧
    get_from_enum ["3", "7"] (fun n : Nat => toString n)
      (.member "3") = .ok (.member "3") :=
  ⟨(get_from_enum_idempotent ["3", "7"] (fun n : Nat => toString n)).1 "3",
   (get_from_enum_idempotent ["3", "7"] (fun n : Nat => toString n)).2
     (.raw 3) (.member "3") (by rfl)⟩

/-! ### Lemmas about the Python dict model -/

theorem dictAssign_keys_map (d : List (String × PyObj)) (k : String)
    (v : PyObj) :
    List.map Prod.fst (d.map (fun p => if p.1 = k then (k, v) else p)) =
      List.map Prod.fst d := by
  rw [List.map_map]
  apply List.map_congr_left
  intro p _
  by_cases hpk : p.1 = k
  · simp [hpk]
  · simp [hpk]

theorem dictKeys_dictAssign (d : List (String × PyObj)) (k : String)
    (v : PyObj) : dictKeys (dictAssign d k v) = insKey (dictKeys d) k := by
  unfold dictAssign insKey
  by_cases h : d.any (fun p => p.1 = k)
  · have hmem : k ∈ List.map Prod.fst d := by
      rcases List.any_eq_true.mp h with ⟨p, hp, hpk⟩
      exact List.mem_map.mpr ⟨p, hp, of_decide_eq_true hpk⟩
    rw [if_pos h]
    unfold dictKeys
    rw [if_pos hmem]
    exact dictAssign_keys_map d k v
  · have hmem : k ∉ List.map Prod.fst d := by
      intro hk
      rcases List.mem_map.mp hk with ⟨p, hp, hpk⟩
      exact h (List.any_eq_true.mpr ⟨p, hp, decide_eq_true hpk⟩)
    rw [if_neg h]
    unfold dictKeys
    rw [if_neg hmem]
    simp

theorem dictGet_map_assign (d : List (String × PyObj)) (k : String)
    (v : PyObj) (h : ∃ p ∈ d, p.1 = k) :
    dictGet k (d.map (fun p => if p.1 = k then (k, v) else p)) = some v := by
  induction d with
  | nil => rcases h with ⟨p, hp, _⟩; cases hp
  | cons p rest ih =>
      by_cases hpk : p.1 = k
      · simp [dictGet, hpk]
      · have h' : ∃ q ∈ rest, q.1 = k := by
          rcases h with ⟨q, hq, hqk⟩
          rcases List.mem_cons.mp hq with rfl | hq'
          · exact absurd hqk hpk
          · exact ⟨q, hq', hqk⟩
        simp [dictGet, hpk, ih h']

theorem dictGet_map_assign_ne (d : List (String × PyObj)) (k k' : String)
    (v : PyObj) (hne : k' ≠ k) :
    dictGet k' (d.map (fun p => if p.1 = k then (k, v) else p)) =
      dictGet k' d := by
  induction d with
  | nil => rfl
  | cons p rest ih =>
      by_cases hpk : p.1 = k
      · have hk : ¬(k = k') := fun h => hne h.symm
        have h1 : ¬(p.1 = k') := by rw [hpk]; exact hk
        simp [dictGet, hpk, hk, h1, ih]
      · by_cases hp' : p.1 = k'
        · simp [dictGet, hpk, hp', hne]
        · simp [dictGet, hpk, hp', ih]

theorem dictGet_append_single (d : List (String × PyObj)) (k k' : String)
    (v : PyObj) :
    dictGet k' (d ++ [(k, v)]) =
      match dictGet k' d with
      | some w => some w
      | none => if k = k' then some v else none := by
  induction d with
  | nil =>
      by_cases hk : k = k'
      · simp [dictGet, hk]
      · simp [dictGet, hk]
  | cons p rest ih =>
      by_cases hp' : p.1 = k'
      · simp [dictGet, hp']
      · simpa [dictGet, hp'] using ih

theorem dictGet_dictAssign_self (d : List (String × PyObj)) (k : String)
    (v : PyObj) : dictGet k (dictAssign d k v) = some v := by
  unfold dictAssign
  by_cases h : d.any (fun p => p.1 = k)
  · rw [if_pos h]
    rcases List.any_eq_true.mp h with ⟨p, hp, hpk⟩
    exact dictGet_map_assign d k v ⟨p, hp, of_decide_eq_true hpk⟩
  · rw [if_neg h]
    have hnone : dictGet k d = none := by
      induction d with
      | nil => rfl
      | cons p rest ih =>
          have hpk : ¬(p.1 = k) := by
            intro hpk
            exact h (List.any_eq_true.mpr
              ⟨p, List.mem_cons_self p rest, decide_eq_true hpk⟩)
          have hrest : ¬(rest.any (fun q => q.1 = k) = true) := by
            intro hrest
            rcases List.any_eq_true.mp hrest with ⟨q, hq, hqk⟩
            exact h (List.any_eq_true.mpr ⟨q, List.mem_cons_of_mem p hq, hqk⟩)
          simp [dictGet, hpk, ih hrest]
    rw [dictGet_append_single, hnone]
    simp

theorem dictGet_dictAssign_ne (d : List (String × PyObj)) (k k' : String)
    (v : PyObj) (hne : k' ≠ k) :
    dictGet k' (dictAssign d k v) = dictGet k' d := by
  unfold dictAssign
  by_cases h : d.any (fun p => p.1 = k)
  · rw [if_pos h]
    exact dictGet_map_assign_ne d k k' v hne
  · rw [if_neg h, dictGet_append_single]
    have hk : ¬(k = k') := fun hk => hne hk.symm
    cases hd : dictGet k' d <;> simp [hk]

theorem dictGet_applyPairs (k : String) (d : List (String × PyObj))
    (ps : List (String × PyObj)) :
    dictGet k (applyPairs d ps) =
      match lastVal k ps with
      | some v => some v
      | none => dictGet k d := by
  induction ps generalizing d with
  | nil => rfl
  | cons p rest ih =>
      show dictGet k (applyPairs (dictAssign d p.1 p.2) rest) = _
      rw [ih]
      cases hrest : lastVal k rest with
      | some v => simp [lastVal, hrest]
      | none =>
          by_cases hpk : p.1 = k
          · subst hpk
            simp [lastVal, hrest, dictGet_dictAssign_self]
          · have : k ≠ p.1 := fun h => hpk h.symm
            simp [lastVal, hrest, hpk, dictGet_dictAssign_ne d p.1 k p.2 this]

theorem dictKeys_applyPairs (d : List (String × PyObj))
    (ps : List (String × PyObj)) :
    dictKeys (applyPairs d ps) = (ps.map Prod.fst).foldl insKey (dictKeys d) := by
  induction ps generalizing d with
  | nil => rfl
  | cons p rest ih =>
      show dictKeys (applyPairs (dictAssign d p.1 p.2) rest) = _
      rw [ih, dictKeys_dictAssign]
      rfl

theorem nodup_insKey (ks : List String) (k : String) (h : ks.Nodup) :
    (insKey ks k).Nodup := by
  unfold insKey
  by_cases hk : k ∈ ks
  · rw [if_pos hk]; exact h
  · rw [if_neg hk]
    simpa [List.nodup_append] using ⟨h, hk⟩

theorem nodup_foldl_insKey (ks acc : List String) (h : acc.Nodup) :
    (ks.foldl insKey acc).Nodup := by
  induction ks generalizing acc with
  | nil => exact h
  | cons k rest ih => exact ih (insKey acc k) (nodup_insKey acc k h)

theorem foldl_insKey_firstDedup (ks acc : List String) :
    ks.foldl insKey acc =
      acc ++ (firstDedup ks).filter (fun x => decide (x ∉ acc)) := by
  induction ks generalizing acc with
  | nil => simp [firstDedup]
  | cons k rest ih =>
      rw [List.foldl_cons, ih (insKey acc k),
        show firstDedup (k :: rest) =
          k :: (firstDedup rest).filter (fun x => x ≠ k) from rfl,
        List.filter_cons]
      unfold insKey
      by_cases hk : k ∈ acc
      · rw [if_pos hk, if_neg (by simp [hk]), List.filter_filter]
        congr 1
        apply List.filter_congr
        intro x _
        by_cases hx : x ∈ acc
        · simp [hx]
        · have hxk : ¬(x = k) := fun h => hx (h ▸ hk)
          simp [hx, hxk]
      · rw [if_neg hk, if_pos (by simpa using hk), List.filter_filter,
          List.append_assoc, List.singleton_append]
        congr 2
        apply List.filter_congr
        intro x _
        by_cases hxk : x = k
        · subst hxk
          simp
        · by_cases hx : x ∈ acc
          · simp [hx, hxk]
          · simp [hx, hxk]

theorem tag2dictGo_eq_childPairs (camel_lookup : Option (List (String × String)))
    (xmlns : Option String) (ts : List Element) (d : List (String × PyObj)) :
    tag2dictGo camel_lookup xmlns ts d =
      (childPairs camel_lookup xmlns ts).map (fun ps => applyPairs d ps) := by
  induction ts generalizing d with
  | nil => rfl
  | cons t rest ih =>
      cases hc : coerceTag t with
      | error e => simp [tag2dictGo, childPairs, hc, Except.map]
      | ok v =>
          simp only [tag2dictGo, childPairs, hc]
          rw [ih]
          cases childPairs camel_lookup xmlns rest with
          | error e => rfl
          | ok ps => rfl

theorem lastVal_childPairs (camel_lookup : Option (List (String × String)))
    (xmlns : Option String) (ts : List Element) (ps : List (String × PyObj))
    (k : String) (h : childPairs camel_lookup xmlns ts = .ok ps) :
    (lastMatching camel_lookup xmlns k ts = none ∧ lastVal k ps = none) ∨
    (∃ t v, lastMatching camel_lookup xmlns k ts = some t ∧
      lastVal k ps = some v ∧ coerceTag t = .ok v) := by
  induction ts generalizing ps with
  | nil =>
      cases h
      exact .inl ⟨rfl, rfl⟩
  | cons t rest ih =>
      simp only [childPairs] at h
      cases hc : coerceTag t with
      | error e => rw [hc] at h; cases h
      | ok v =>
          rw [hc] at h
          cases hrest : childPairs camel_lookup xmlns rest with
          | error e => rw [hrest] at h; cases h
          | ok ps' =>
              rw [hrest] at h
              simp only [Except.map] at h
              cases h
              rcases ih ps' hrest with ⟨hm, hv⟩ | ⟨u, w, hm, hv, hcw⟩
              · by_cases hk : canonKey camel_lookup xmlns t.tag = k
                · refine .inr ⟨t, v, ?_, ?_, hc⟩
                  · simp [lastMatching, hm, hk]
                  · simp [lastVal, hv, hk]
                · refine .inl ⟨?_, ?_⟩
                  · simp [lastMatching, hm, hk]
                  · simp [lastVal, hv, hk]
              · refine .inr ⟨u, w, ?_, ?_, hcw⟩
                · simp [lastMatching, hm]
                · simp [lastVal, hv]

theorem keys_childPairs (camel_lookup : Option (List (String × String)))
    (xmlns : Option String) (ts : List Element) (ps : List (String × PyObj))
    (h : childPairs camel_lookup xmlns ts = .ok ps) :
    ps.map Prod.fst = ts.map (fun t => canonKey camel_lookup xmlns t.tag) := by
  induction ts generalizing ps with
  | nil => cases h; rfl
  | cons t rest ih =>
      simp only [childPairs] at h
      cases hc : coerceTag t with
      | error e => rw [hc] at h; cases h
      | ok v =>
          rw [hc] at h
          cases hrest : childPairs camel_lookup xmlns rest with
          | error e => rw [hrest] at h; cases h
          | ok ps' =>
              rw [hrest] at h
              simp only [Except.map] at h
              cases h
              simp [ih ps' hrest]

theorem childPairs_ok_of_mem (camel_lookup : Option (List (String × String)))
    (xmlns : Option String) (ts : List Element) (ps : List (String × PyObj))
    (h : childPairs camel_lookup xmlns ts = .ok ps) :
    ∀ t ∈ ts, ∃ v, coerceTag t = .ok v := by
  induction ts generalizing ps with
  | nil => intro t ht; cases ht
  | cons t rest ih =>
      simp only [childPairs] at h
      cases hc : coerceTag t with
      | error e => rw [hc] at h; cases h
      | ok v =>
          rw [hc] at h
          cases hrest : childPairs camel_lookup xmlns rest with
          | error e => rw [hrest] at h; cases h
          | ok ps' =>
              intro u hu
              rcases List.mem_cons.mp hu with rfl | hu'
              · exact ⟨v, hc⟩
              · exact ih ps' hrest u hu'

theorem childPairs_total (camel_lookup : Option (List (String × String)))
    (xmlns : Option String) (ts : List Element)
    (h : ∀ t ∈ ts, t.pytype = .str ∨ t.pytype = .other) :
    ∃ ps, childPairs camel_lookup xmlns ts = .ok ps := by
  induction ts with
  | nil => exact ⟨[], rfl⟩
  | cons t rest ih =>
      have hok : ∃ v, coerceTag t = .ok v := by
        rcases h t (List.mem_cons_self t rest) with hs | ho
        · exact ⟨.pyStr (pyStrOfText t.text), by simp [coerceTag, hs]⟩
        · exact ⟨rawPassThrough t.text, by simp [coerceTag, ho]⟩
      rcases hok with ⟨v, hv⟩
      rcases ih (fun u hu => h u (List.mem_cons_of_mem t hu)) with ⟨ps', hps'⟩
      refine ⟨(canonKey camel_lookup xmlns t.tag, v) :: ps', ?_⟩
      simp [childPairs, hv, hps', Except.map]

/-! ### Lemmas about the CamelCase→snake_case transform -/

theorem snakeChar_props (c : Char) (h : snakeChar c = true) :
    isUpperA c = false ∧ toLowerA c = c := by
  have hn : (97 ≤ c.toNat ∧ c.toNat ≤ 122) ∨
      (48 ≤ c.toNat ∧ c.toNat ≤ 57) ∨ c.toNat = 95 := by
    unfold snakeChar isLowerA isDigitA at h
    simp only [Bool.or_eq_true, Bool.and_eq_true, decide_eq_true_eq] at h
    rcases h with (⟨h1, h2⟩ | ⟨h1, h2⟩) | hc
    · exact .inl ⟨h1, h2⟩
    · exact .inr (.inl ⟨h1, h2⟩)
    · subst hc
      exact .inr (.inr rfl)
  have hup : isUpperA c = false := by
    unfold isUpperA
    rcases hn with ⟨h1, h2⟩ | ⟨h1, h2⟩ | h1 <;>
      · simp only [Bool.and_eq_false_iff, decide_eq_false_iff_not, not_le]
        omega
  refine ⟨hup, ?_⟩
  unfold toLowerA
  rw [hup]
  simp

theorem c2sGo_snake (l : List Char) (p : Char)
    (h : ∀ c ∈ l, snakeChar c = true) : c2sGo p l = l := by
  induction l generalizing p with
  | nil => rfl
  | cons c rest ih =>
      have hc := snakeChar_props c (h c (List.mem_cons_self c rest))
      have hsep : needsSep p c rest = false := by
        unfold needsSep
        rw [hc.1]
        simp
      unfold c2sGo
      rw [hsep]
      simp only [Bool.false_eq_true, if_false]
      rw [hc.2, ih c (fun u hu => h u (List.mem_cons_of_mem c hu))]

theorem camel_to_snake_of_snake (s : String) (h : isSnakeName s = true) :
    camel_to_snake s = s := by
  unfold isSnakeName at h
  have hall : ∀ c ∈ s.data, snakeChar c = true := by
    intro c hc
    exact List.all_eq_true.mp h c hc
  cases s with
  | mk data =>
      cases data with
      | nil => rfl
      | cons c rest =>
          have hc := snakeChar_props c (hall c (List.mem_cons_self c rest))
          show String.mk (toLowerA c :: c2sGo c rest) = ⟨c :: rest⟩
          rw [hc.2, c2sGo_snake rest c
            (fun u hu => hall u (List.mem_cons_of_mem c hu))]

/-! ### Claims about `tag2dict` canonical keys -/

/-- C7: `tag2dict` computes the canonical key of a child tag by (a)
stripping the configured `{xmlns}` namespace prefix if one is configured
and present, (b) looking the resulting name up in the optional
`camel_lookup` override table, and (c) otherwise applying the generic
CamelCase→snake_case transform; the transform is deterministic and total
(every tag name has exactly one canonical key), and it leaves an
already-canonical snake_case name unchanged. -/
theorem canonKey_pipeline (tbl : List (String × String)) (ns : Option String)
    (tag s nsUrl suffix : String) :
    (canonKey (some tbl) ns tag =
      match tbl.lookup (stripXmlns ns tag) with
      | some v => v
      | none => camel_to_snake (stripXmlns ns tag)) ∧
    (canonKey none ns tag = camel_to_snake (stripXmlns ns tag)) ∧
    (nsUrl ≠ "" →
      stripXmlns (some nsUrl) ("\x7b" ++ nsUrl ++ "\x7d" ++ suffix) = suffix) ∧
    (∃! k, canonKey (some tbl) ns tag = k) ∧
    (isSnakeName s = true → camel_to_snake s = s) := by
  refine ⟨rfl, rfl, ?_, ⟨canonKey (some tbl) ns tag, rfl, fun y hy => hy.symm⟩,
    camel_to_snake_of_snake s⟩
  intro hns
  show (if nsUrl = "" then _ else _) = suffix
  rw [if_neg hns]
  have hdata : ("\x7b" ++ nsUrl ++ "\x7d" ++ suffix).data =
      ("\x7b" ++ nsUrl ++ "\x7d").data ++ suffix.data := String.data_append _ _
  have hpre : ("\x7b" ++ nsUrl ++ "\x7d").data.isPrefixOf
      ("\x7b" ++ nsUrl ++ "\x7d" ++ suffix).data = true := by
    rw [hdata]
    have hp : ("\x7b" ++ nsUrl ++ "\x7d").data <+:
        ("\x7b" ++ nsUrl ++ "\x7d").data ++ suffix.data :=
      List.prefix_append _ _
    exact List.isPrefixOf_iff_prefix.mpr hp
  rw [if_pos hpre, hdata, List.drop_left]

/-- Witness for C7: the one-element namespace strip removes the braced URL
`{u}` from `{u}Version`, the canonical key of `DeviceName` is unique, and
`sample_name` is already canonical, so the transform leaves it unchanged. -/
theorem canonKey_pipeline_witness :
    stripXmlns (some "u") ("\x7b" ++ "u" ++ "\x7d" ++ "Version") = "Version" ∧
    (∃! k, canonKey (some []) none "DeviceName" = k) ∧
    camel_to_snake "sample_name" = "sample_name" :=
  ⟨(canonKey_pipeline [] none "DeviceName" "sample_name" "u" "Version").2.2.1
     (by decide),
   (canonKey_pipeline [] none "DeviceName" "sample_name" "u" "Version").2.2.2.1,
   (canonKey_pipeline [] none "DeviceName" "sample_name" "u" "Version").2.2.2.2
     (by decide)⟩

/-! ### Claims about `XMLList` -/

/-- C5: constructing an `XMLList` from an XML root element reads the
`Version` child to fix the version: when the `Version` child is absent the
construction fails (objectify attribute access raises `AttributeError`),
when its text is not a valid integer literal the construction fails (the
`int(...)` coercion in `__init__` raises `ValueError`), and on success the
stored version is exactly the integer parsed from the `Version` text and
the record list starts empty. -/
theorem XMLList_from_xml_version (ρ : Type) (elem : Element) :
    (findChild elem "Version" = none →
      XMLList.from_xml ρ elem = .error (.attributeError "no such child: Version")) ∧
    (∀ v e, findChild elem "Version" = some v → pyIntOfText v.text = .error e →
      XMLList.from_xml ρ elem = .error e) ∧
    (∀ l : XMLList ρ, XMLList.from_xml ρ elem = .ok l →
      ∃ v, findChild elem "Version" = some v ∧
        pyIntOfText v.text = .ok l.version ∧ l.records = []) := by
  refine ⟨fun h => ?_, fun v e hv he => ?_, fun l hl => ?_⟩
  · unfold XMLList.from_xml
    rw [h]
  · unfold XMLList.from_xml
    rw [hv]
    show Except.map (fun n => XMLList.mk n []) (pyIntOfText v.text) = .error e
    rw [he]
    rfl
  · unfold XMLList.from_xml at hl
    cases hfc : findChild elem "Version" with
    | none => rw [hfc] at hl; cases hl
    | some v =>
        rw [hfc] at hl
        have hl' : Except.map (fun n => XMLList.mk n ([] : List ρ))
            (pyIntOfText v.text) = .ok l := hl
        cases hpi : pyIntOfText v.text with
        | error e => rw [hpi] at hl'; cases hl'
        | ok n =>
            rw [hpi] at hl'
            simp only [Except.map] at hl'
            cases hl'
            exact ⟨v, rfl, hpi, rfl⟩

/-- Witness for C5 at concrete elements: a root without a `Version` child
fails, a root whose `Version` text is `"two"` fails with the `int()`
`ValueError`, and a root with `Version` text `"2"` succeeds with integer
version `2` and no records. -/
theorem XMLList_from_xml_version_witness :
    XMLList.from_xml Unit (.mk "Root" .other none []) =
      .error (.attributeError "no such child: Version") ∧
    XMLList.from_xml Unit
        (.mk "Root" .other none [.mk "Version" .str (some "two") []]) =
      .error (.valueError "invalid literal for int() with base 10") ∧
    (∃ v, findChild (.mk "Root" .other none [.mk "Version" .int (some "2") []])
        "Version" = some v ∧
      pyIntOfText v.text = .ok (2 : Int) ∧ ([] : List Unit) = []) := by
  refine ⟨?_, ?_, ?_⟩
  · exact (XMLList_from_xml_version Unit _).1 rfl
  · exact (XMLList_from_xml_version Unit _).2.1
      (.mk "Version" .str (some "two") [])
      (.valueError "invalid literal for int() with base 10") rfl rfl
  · have h := (XMLList_from_xml_version Unit
      (.mk "Root" .other none [.mk "Version" .int (some "2") []])).2.2
      ⟨2, []⟩ rfl
    rcases h with ⟨v, hv, hpi, _⟩
    exact ⟨v, hv, hpi, rfl⟩

/-- C3: for every versioned record list and every sequence of
`_append_from_element` calls, the final record sequence is the initial one
followed by the per-call groups concatenated in call order; hence the final
length is the initial length plus the sum, over all calls, of the number of
direct children of the call's element whose tag equals the call's child tag
name.  Each call's group is one from-XML construction per matching child in
document order, and a call matching zero children appends nothing and is
not an error. -/
theorem appendCalls_spec (ρ : Type) (l : XMLList ρ)
    (calls : List (AppendCall ρ)) :
    ((appendCalls l calls).records =
      l.records ++
        (calls.map (fun c => make_from_element c.element c.name c.fromXml)).flatten) ∧
    ((appendCalls l calls).records.length =
      l.records.length +
        (calls.map (fun c =>
          (c.element.children.filter (fun ch => ch.tag = c.name)).length)).sum) ∧
    (∀ c : AppendCall ρ,
      make_from_element c.element c.name c.fromXml =
        (c.element.children.filter (fun ch => ch.tag = c.name)).map c.fromXml) ∧
    (∀ (l' : XMLList ρ) (c : AppendCall ρ),
      c.element.children.filter (fun ch => ch.tag = c.name) = [] →
        l'._append_from_element c.element c.name c.fromXml = l') := by
  have hrec : ∀ (calls : List (AppendCall ρ)) (l : XMLList ρ),
      (appendCalls l calls).records =
        l.records ++
          (calls.map (fun c => make_from_element c.element c.name c.fromXml)).flatten := by
    intro calls
    induction calls with
    | nil => intro l; simp [appendCalls]
    | cons c rest ih =>
        intro l
        show (appendCalls (l._append_from_element c.element c.name c.fromXml)
          rest).records = _
        rw [ih]
        simp [XMLList._append_from_element]
  refine ⟨hrec calls l, ?_, fun c => rfl, fun l' c hc => ?_⟩
  · rw [hrec calls l]
    rw [List.length_append, List.length_flatten, List.map_map]
    congr 1
    congr 1
    apply List.map_congr_left
    intro c _
    show (make_from_element c.element c.name c.fromXml).length = _
    unfold make_from_element
    rw [List.length_map]
  · unfold XMLList._append_from_element make_from_element
    rw [hc]
    simp

/-- Witness for C3: an `_append_from_element` call whose child tag matches
no child of the element appends nothing. -/
theorem appendCalls_spec_witness :
    XMLList._append_from_element (⟨1, [0]⟩ : XMLList Nat)
      (.mk "Root" .other none [.mk "Other" .other none []]) "Device"
      (fun _ => 0) = (⟨1, [0]⟩ : XMLList Nat) :=
  (appendCalls_spec Nat ⟨1, [0]⟩ []).2.2.2 ⟨1, [0]⟩
    ⟨.mk "Root" .other none [.mk "Other" .other none []], "Device", fun _ => 0⟩
    (by rfl)

/-- C9: the `version` attribute of a versioned record list is fixed at
construction and unchanged by every subsequent operation of the type
(`_append_from_element`, any sequence of such calls, and the inherited
index assignment), and the record sequence grows only by appending the
records parsed from an element — existing records are preserved as a
prefix, and direct index mutation never grows the sequence. -/
theorem XMLList_invariants (ρ : Type) :
    (∀ (version : Int) (initlist : List ρ),
      (XMLList.mk version initlist).version = version) ∧
    (∀ (l : XMLList ρ) (e : Element) (n : String) (f : Element → ρ),
      (l._append_from_element e n f).version = l.version) ∧
    (∀ (l : XMLList ρ) (calls : List (AppendCall ρ)),
      (appendCalls l calls).version = l.version) ∧
    (∀ (l : XMLList ρ) (e : Element) (n : String) (f : Element → ρ),
      ∃ appended, (l._append_from_element e n f).records =
        l.records ++ appended) ∧
    (∀ (l : XMLList ρ) (i : Nat) (x : ρ),
      (l.setItem i x).version = l.version ∧
      (l.setItem i x).records.length = l.records.length) := by
  refine ⟨fun v il => rfl, fun l e n f => rfl, ?_,
    fun l e n f => ⟨make_from_element e n f, rfl⟩,
    fun l i x => ⟨rfl, List.length_set l.records i x⟩⟩
  intro l calls
  induction calls generalizing l with
  | nil => rfl
  | cons c rest ih =>
      show (appendCalls (l._append_from_element c.element c.name c.fromXml)
        rest).version = l.version
      rw [ih]
      rfl

/-! ### Claims about the metadata extraction orchestrator -/

/-- C4: `extract_metadata` fails with a `TypeError` for every non-path-like
argument (a number or a list) and with the "not a recognized datafile"
`ValueError` for every path-like argument that does not name an existing
directory ending in the vendor extension `.d`; in both cases it performs no
file I/O (the read trace is empty) and returns an error rather than any
partial mapping.  `is_datafile` rejects non-path-like arguments with a
`TypeError` at the same boundary. -/
theorem extract_metadata_validation (fs : FileSystem) :
    (∀ n : Int, extract_metadata fs (.intArg n) =
      (.error (.typeError "argument should be a str or an os.PathLike object"), [])) ∧
    (∀ len : Nat, extract_metadata fs (.listArg len) =
      (.error (.typeError "argument should be a str or an os.PathLike object"), [])) ∧
    (∀ p : String, ¬(fs.isDir p = true ∧ p.endsWith ".d" = true) →
      extract_metadata fs (.pathLike p) =
        (.error (.valueError "not a recognized Agilent datafile"), [])) ∧
    (∀ n : Int, is_datafile fs (.intArg n) =
      .error (.typeError "argument should be a str or an os.PathLike object")) ∧
    (∀ len : Nat, is_datafile fs (.listArg len) =
      .error (.typeError "argument should be a str or an os.PathLike object")) := by
  refine ⟨fun n => rfl, fun len => rfl, fun p hp => ?_, fun n => rfl,
    fun len => rfl⟩
  have hcond : (fs.isDir p && p.endsWith ".d") = false := by
    by_cases hd : fs.isDir p = true
    · by_cases he : p.endsWith ".d" = true
      · exact absurd ⟨hd, he⟩ hp
      · simp only [Bool.not_eq_true] at he
        simp [hd, he]
    · simp only [Bool.not_eq_true] at hd
      simp [hd]
  simp only [extract_metadata, hcond]
  rfl

/-- Witness for C4: on a filesystem with no directories, a path-like
argument not naming a datafile directory is rejected without any file
read. -/
theorem extract_metadata_validation_witness :
    extract_metadata ⟨fun _ => false, fun _ => none⟩ (.pathLike "sample.d") =
      (.error (.valueError "not a recognized Agilent datafile"), []) :=
  (extract_metadata_validation ⟨fun _ => false, fun _ => none⟩).2.2.1
    "sample.d" (by simp)

/-! ### Claims about `tag2dict` coercion and duplicate keys -/

theorem tag2dict_ok_childPairs (elem : Element)
    (tbl : Option (List (String × String))) (ns : Option String)
    (d : List (String × PyObj)) (h : tag2dict elem tbl ns = .ok d) :
    ∃ ps, childPairs tbl ns elem.children = .ok ps ∧ d = applyPairs [] ps := by
  unfold tag2dict at h
  rw [tag2dictGo_eq_childPairs] at h
  cases hcp : childPairs tbl ns elem.children with
  | error e => rw [hcp] at h; cases h
  | ok ps =>
      rw [hcp] at h
      simp only [Except.map] at h
      cases h
      exact ⟨ps, rfl, rfl⟩

theorem coerceTag_routing (t : Element) (v : PyObj) (h : coerceTag t = .ok v) :
    (t.pytype = .int → ∃ n, pyIntOfText t.text = .ok n ∧ v = .pyInt n) ∧
    (t.pytype = .str → v = .pyStr (pyStrOfText t.text)) ∧
    (t.pytype = .float →
      ∃ lit, pyFloatOfText t.text = .ok lit ∧ v = .pyFloat lit) ∧
    (t.pytype = .other → v = rawPassThrough t.text) := by
  refine ⟨fun hty => ?_, fun hty => ?_, fun hty => ?_, fun hty => ?_⟩
  · unfold coerceTag at h
    rw [hty] at h
    cases hpi : pyIntOfText t.text with
    | error e => rw [hpi] at h; cases h
    | ok n =>
        rw [hpi] at h
        simp only [Except.map] at h
        cases h
        exact ⟨n, rfl, rfl⟩
  · unfold coerceTag at h
    rw [hty] at h
    cases h
    rfl
  · unfold coerceTag at h
    rw [hty] at h
    cases hpf : pyFloatOfText t.text with
    | error e => rw [hpf] at h; cases h
    | ok lit =>
        rw [hpf] at h
        simp only [Except.map] at h
        cases h
        exact ⟨lit, rfl, rfl⟩
  · unfold coerceTag at h
    rw [hty] at h
    cases h
    rfl

/-- C2: `tag2dict` coerces every direct child by its declared objectify
leaf class — an integer-typed leaf is parsed as a native integer, a
string-typed leaf is decoded as text, a float-typed leaf is parsed as a
floating-point number, and any other (untyped/mixed) leaf passes its raw
`.text` through unmodified — and the fallback branch never fails: an
element whose children all take the string or fallback branch always
produces a mapping. -/
theorem tag2dict_leaf_classification (elem : Element)
    (tbl : Option (List (String × String))) (ns : Option String) :
    (∀ d, tag2dict elem tbl ns = .ok d →
      ∀ t ∈ elem.children, ∃ v, coerceTag t = .ok v ∧
        (t.pytype = .int → ∃ n, pyIntOfText t.text = .ok n ∧ v = .pyInt n) ∧
        (t.pytype = .str → v = .pyStr (pyStrOfText t.text)) ∧
        (t.pytype = .float →
          ∃ lit, pyFloatOfText t.text = .ok lit ∧ v = .pyFloat lit) ∧
        (t.pytype = .other → v = rawPassThrough t.text)) ∧
    ((∀ t ∈ elem.children, t.pytype = .str ∨ t.pytype = .other) →
      ∃ d, tag2dict elem tbl ns = .ok d) := by
  constructor
  · intro d h t ht
    obtain ⟨ps, hcp, rfl⟩ := tag2dict_ok_childPairs elem tbl ns _ h
    obtain ⟨v, hv⟩ := childPairs_ok_of_mem tbl ns elem.children ps hcp t ht
    exact ⟨v, hv, coerceTag_routing t v hv⟩
  · intro hsafe
    obtain ⟨ps, hps⟩ := childPairs_total tbl ns elem.children hsafe
    refine ⟨applyPairs [] ps, ?_⟩
    unfold tag2dict
    rw [tag2dictGo_eq_childPairs, hps]
    rfl

/-- Witness for C2 on a concrete element with one child of each leaf class:
every child coerces per its class, and an element with only string/fallback
children always yields a mapping. -/
theorem tag2dict_leaf_classification_witness :
    (∃ v, coerceTag (Element.mk "N" .int (some "12") []) = .ok v ∧
      ((Element.mk "N" .int (some "12") []).pytype = .int →
        ∃ n, pyIntOfText (Element.mk "N" .int (some "12") []).text = .ok n ∧
          v = .pyInt n) ∧
      ((Element.mk "N" .int (some "12") []).pytype = .str →
        v = .pyStr (pyStrOfText (Element.mk "N" .int (some "12") []).text)) ∧
      ((Element.mk "N" .int (some "12") []).pytype = .float →
        ∃ lit, pyFloatOfText (Element.mk "N" .int (some "12") []).text = .ok lit ∧
          v = .pyFloat lit) ∧
      ((Element.mk "N" .int (some "12") []).pytype = .other →
        v = rawPassThrough (Element.mk "N" .int (some "12") []).text)) ∧
    (∃ d, tag2dict
      (Element.mk "Root" .other none
        [.mk "Name" .str (some "QC1") [], .mk "Raw" .other none []])
      none none = .ok d) := by
  constructor
  · exact (tag2dict_leaf_classification
      (Element.mk "Root" .other none [.mk "N" .int (some "12") []])
      none none).1 [("n", .pyInt 12)] (by rfl)
      (Element.mk "N" .int (some "12") []) (by simp [Element.children])
  · exact (tag2dict_leaf_classification
      (Element.mk "Root" .other none
        [.mk "Name" .str (some "QC1") [], .mk "Raw" .other none []])
      none none).2 (by
        intro t ht
        simp only [Element.children, List.mem_cons, List.mem_singleton] at ht
        rcases ht with rfl | rfl | h
        · exact .inl rfl
        · exact .inr rfl
        · cases h)

/-- C6: for every element, the mapping built by `tag2dict` has each
canonical key exactly once; the key order is the document order of the
children producing each key's first occurrence (Python dict insertion
order, a re-assigned key keeping its original position); and the value
stored under a key is the one coerced from the last child in document
order whose canonical key is that key — so when a key occurs more than
once, the later occurrence overwrites the earlier one. -/
theorem tag2dict_duplicate_keys (elem : Element)
    (tbl : Option (List (String × String))) (ns : Option String)
    (d : List (String × PyObj)) (h : tag2dict elem tbl ns = .ok d) :
    (dictKeys d).Nodup ∧
    dictKeys d =
      firstDedup (elem.children.map (fun t => canonKey tbl ns t.tag)) ∧
    (∀ k t, lastMatching tbl ns k elem.children = some t →
      ∃ v, coerceTag t = .ok v ∧ dictGet k d = some v) := by
  obtain ⟨ps, hcp, rfl⟩ := tag2dict_ok_childPairs elem tbl ns d h
  have hkeys : dictKeys (applyPairs [] ps) =
      firstDedup (elem.children.map (fun t => canonKey tbl ns t.tag)) := by
    rw [dictKeys_applyPairs, keys_childPairs tbl ns elem.children ps hcp]
    rw [foldl_insKey_firstDedup]
    show _ = firstDedup _
    rw [show dictKeys [] = [] from rfl]
    simp
  refine ⟨?_, hkeys, ?_⟩
  · rw [dictKeys_applyPairs]
    exact nodup_foldl_insKey _ _ (by simp [dictKeys])
  · intro k t hlast
    rcases lastVal_childPairs tbl ns elem.children ps k hcp with
      ⟨hm, _⟩ | ⟨t', v, hm, hv, hcv⟩
    · rw [hlast] at hm; cases hm
    · rw [hlast] at hm
      injection hm with ht'
      subst ht'
      refine ⟨v, hcv, ?_⟩
      rw [dictGet_applyPairs, hv]

/-- Witness for C6 on an element with two children sharing the canonical
key `ab`: the resulting mapping holds the key once, in first-occurrence
position, with the value coerced from the second (last) child. -/
theorem tag2dict_duplicate_keys_witness :
    (dictKeys [("ab", PyObj.pyInt 2)]).Nodup ∧
    dictKeys [("ab", PyObj.pyInt 2)] =
      firstDedup ((Element.mk "Root" .other none
        [.mk "AB" .int (some "1") [], .mk "AB" .int (some "2") []]).children.map
        (fun t => canonKey none none t.tag)) ∧
    (∀ k t, lastMatching none none k (Element.mk "Root" .other none
        [.mk "AB" .int (some "1") [], .mk "AB" .int (some "2") []]).children =
        some t →
      ∃ v, coerceTag t = .ok v ∧ dictGet k [("ab", PyObj.pyInt 2)] = some v) :=
  tag2dict_duplicate_keys
    (Element.mk "Root" .other none
      [.mk "AB" .int (some "1") [], .mk "AB" .int (some "2") []])
    none none [("ab", PyObj.pyInt 2)] (by rfl)

/-- C10: a direct child classified as a string-typed leaf whose `.text` is
absent (Python `None`, as for an empty `StringElement`) contributes the
literal four-character string `"None"` — the `str(None)` conversion — to
the mapping, not the empty string and not a null value. -/
theorem tag2dict_none_text_str (elem : Element)
    (tbl : Option (List (String × String))) (ns : Option String)
    (d : List (String × PyObj)) (k : String) (t : Element)
    (h : tag2dict elem tbl ns = .ok d)
    (hlast : lastMatching tbl ns k elem.children = some t)
    (hty : t.pytype = .str) (htext : t.text = none) :
    dictGet k d = some (.pyStr "None") ∧
    PyObj.pyStr "None" ≠ PyObj.pyStr "" ∧
    PyObj.pyStr "None" ≠ PyObj.pyNone := by
  obtain ⟨ps, hcp, rfl⟩ := tag2dict_ok_childPairs elem tbl ns d h
  rcases lastVal_childPairs tbl ns elem.children ps k hcp with
    ⟨hm, _⟩ | ⟨t', v, hm, hv, hcv⟩
  · rw [hlast] at hm; cases hm
  · rw [hlast] at hm
    injection hm with ht'
    subst ht'
    have hcoerce : coerceTag t = .ok (.pyStr "None") := by
      unfold coerceTag
      rw [hty, htext]
      rfl
    rw [hcoerce] at hcv
    injection hcv with hv'
    refine ⟨?_, by simp, by simp⟩
    rw [dictGet_applyPairs, hv, hv']

/-- Witness for C10: an empty string-typed `SampleName` child maps
`sample_name` to the string `"None"`. -/
theorem tag2dict_none_text_str_witness :
    dictGet "sample_name" [("sample_name", PyObj.pyStr "None")] =
      some (.pyStr "None") ∧
    PyObj.pyStr "None" ≠ PyObj.pyStr "" ∧
    PyObj.pyStr "None" ≠ PyObj.pyNone :=
  tag2dict_none_text_str
    (Element.mk "Root" .other none [.mk "SampleName" .str none []])
    none none [("sample_name", PyObj.pyStr "None")] "sample_name"
    (.mk "SampleName" .str none []) (by rfl) (by rfl) rfl rfl

end PymsAgilent
